/-
  Verification of the StimFood ordering bot (src/bot.py) against its
  natural-language specification.

  The Python source is shallowly embedded: pure helpers become Lean
  functions over `String` / `List Char`, the SQLite-backed FSM store and
  the Google-Sheets ledger become explicit state values, and each aiogram
  handler becomes a state-transition function.  Python integers are
  modelled as `Int` (they are unbounded), and every call to
  `datetime.now()` is threaded through as an explicit string parameter so
  that time-dependent behaviour stays deterministic.
-/
import Mathlib

set_option maxHeartbeats 1000000

namespace StimFood

/-! ### Character and string utilities shared by the embedded helpers -/

/-- Python `str.strip()` on a character list: drop whitespace from both
ends.  (Lean's `Char.isWhitespace` covers space, tab, CR and LF; the extra
Unicode space characters Python also strips do not occur in the data this
program handles.) -/
def trimL (cs : List Char) : List Char :=
  ((cs.dropWhile Char.isWhitespace).reverse.dropWhile Char.isWhitespace).reverse

/-- Python `str.strip()` at `String` level. -/
def pyStrip (s : String) : String := String.mk (trimL s.data)

/-- Lower-casing of a single character, covering the ASCII and Cyrillic
letters this bot works with (Python's `str.lower()` restricted to the
alphabets that occur in the sheets and messages). -/
def lowerChar (c : Char) : Char :=
  if 0x41 ≤ c.toNat ∧ c.toNat ≤ 0x5A then Char.ofNat (c.toNat + 0x20)
  else if 0x410 ≤ c.toNat ∧ c.toNat ≤ 0x42F then Char.ofNat (c.toNat + 0x20)
  else if c = 'Ё' then 'ё'
  else c

/-- Python `str.lower()` (ASCII + Cyrillic). -/
def lowerStr (s : String) : String := String.mk (s.data.map lowerChar)

/-- Python `str(x).strip().lower()` as used for dish-name normalization. -/
def strNorm (s : String) : String := lowerStr (pyStrip s)

/-! ### `normalize_phone` (bot.py lines 91-100)

```python
def normalize_phone(text):
    digits = re.sub(r"[^\d+]", "", text).strip()
    if digits.startswith("8"):
        digits = "+7" + digits[1:]
    if digits.startswith("+") and len(re.sub(r"\D", "", digits)) >= 10:
        return digits
    if len(re.sub(r"\D", "", digits)) >= 10:
        return "+" + re.sub(r"\D", "", digits)
    return None
```

The `.strip()` after the substitution is a no-op (the substitution has
already removed every whitespace character), so it is not modelled. -/

/-- Characters kept by `re.sub(r"[^\d+]", "", text)`: digits and `+`. -/
def keepPhoneChars (cs : List Char) : List Char :=
  cs.filter (fun c => c.isDigit || c == '+')

/-- Python `re.sub(r"\D", "", s)`: only the digits of `s`. -/
def digitsOf (cs : List Char) : List Char :=
  cs.filter (fun c => c.isDigit)

/-- The `digits.startswith("8")` branch: a leading `8` is rewritten to `+7`. -/
def ru8Rewrite (cs : List Char) : List Char :=
  match cs with
  | c :: rest => if c == '8' then '+' :: '7' :: rest else c :: rest
  | [] => []

/-- Shallow embedding of `normalize_phone`. -/
def normalize_phone (s : String) : Option String :=
  if (ru8Rewrite (keepPhoneChars s.data)).head? = some '+' ∧
      10 ≤ (digitsOf (ru8Rewrite (keepPhoneChars s.data))).length then
    some (String.mk (ru8Rewrite (keepPhoneChars s.data)))
  else if 10 ≤ (digitsOf (ru8Rewrite (keepPhoneChars s.data))).length then
    some (String.mk ('+' :: digitsOf (ru8Rewrite (keepPhoneChars s.data))))
  else
    none

/-- The `8 ↦ +7` rewrite does not change how many digits the list holds. -/
theorem digitsOf_ru8Rewrite (cs : List Char) :
    (digitsOf (ru8Rewrite cs)).length = (digitsOf cs).length := by
  cases cs with
  | nil => rfl
  | cons c rest =>
    by_cases h : c = '8'
    · subst h
      have h1 : digitsOf (ru8Rewrite ('8' :: rest)) = '7' :: digitsOf rest := rfl
      have h2 : digitsOf ('8' :: rest) = '8' :: digitsOf rest := rfl
      simp [h1, h2]
    · have hbe : (c == '8') = false := by simpa using h
      have h1 : ru8Rewrite (c :: rest) = c :: rest := by
        simp [ru8Rewrite, hbe]
      rw [h1]

/-- A digit survives `keepPhoneChars`, so the digit count is unchanged. -/
theorem digitsOf_keepPhoneChars (cs : List Char) :
    digitsOf (keepPhoneChars cs) = digitsOf cs := by
  induction cs with
  | nil => rfl
  | cons c rest ih =>
    by_cases h : c.isDigit
    · simp [digitsOf, keepPhoneChars, List.filter_cons, h] at *
      exact ih
    · simp only [Bool.not_eq_true] at h
      by_cases hp : c == '+'
      · simp [digitsOf, keepPhoneChars, List.filter_cons, h, hp] at *
        exact ih
      · simp only [Bool.not_eq_true] at hp
        simp [digitsOf, keepPhoneChars, List.filter_cons, h, hp] at *
        exact ih

/-- C4: `normalize_phone` maps `"89261234567"` to `"+79261234567"`, maps
`"+375 33 377 73 08"` to `"+375333777308"` (digits-only with a leading `+`
and at least 10 digits), rejects `"12"`, and in general: an input whose
digit count after stripping non-digit/non-plus characters is at least 10
yields a result starting with `+`, while fewer than 10 digits yield no
result. -/
theorem normalize_phone_spec :
    normalize_phone "89261234567" = some "+79261234567" ∧
    normalize_phone "+375 33 377 73 08" = some "+375333777308" ∧
    normalize_phone "12" = none ∧
    ∀ s : String,
      (10 ≤ (digitsOf (keepPhoneChars s.data)).length ∧
        ∃ r, normalize_phone s = some r ∧ r.data.head? = some '+') ∨
      ((digitsOf (keepPhoneChars s.data)).length < 10 ∧ normalize_phone s = none) := by
  refine ⟨by decide, by decide, by decide, ?_⟩
  intro s
  have hlen : (digitsOf (ru8Rewrite (keepPhoneChars s.data))).length
      = (digitsOf (keepPhoneChars s.data)).length := digitsOf_ru8Rewrite _
  by_cases h10 : 10 ≤ (digitsOf (keepPhoneChars s.data)).length
  · left
    refine ⟨h10, ?_⟩
    unfold normalize_phone
    by_cases hplus : (ru8Rewrite (keepPhoneChars s.data)).head? = some '+'
    · rw [if_pos ⟨hplus, by omega⟩]
      exact ⟨_, rfl, hplus⟩
    · rw [if_neg (by tauto), if_pos (by omega)]
      exact ⟨_, rfl, rfl⟩
  · right
    refine ⟨by omega, ?_⟩
    unfold normalize_phone
    rw [if_neg (by intro hc; exact h10 (by omega)), if_neg (by omega)]

/-! ### `extract_ddmmyyyy` (bot.py lines 122-148)

```python
def extract_ddmmyyyy(s):
    if not s:
        return datetime.now().strftime("%d.%m.%Y")
    s = s.strip()
    m = re.search(r'(\b\d{2}\.\d{2}\.\d{4}\b)', s)
    if m:
        return m.group(1)
    m = re.search(r'\b(\d{4})-(\d{2})-(\d{2})\b', s)
    if m:
        y, mo, d = m.groups()
        return f"{d}.{mo}.{y}"
    return datetime.now().strftime("%d.%m.%Y")
```

`datetime.now().strftime("%d.%m.%Y")` is threaded in as the parameter
`today`.  Both regexes match a fixed-width 10-character window delimited
by `\b`; since the first and last characters of either window are digits
(word characters), the `\b` assertions reduce to "the neighbouring
character, when present, is not a word character".  The generic scanner
`search10` below tries every start position from the left, exactly like
`re.search`. -/

/-- Python's `\w` for the alphabets this program handles: ASCII
alphanumerics, underscore, and Cyrillic letters. -/
def wordChar (c : Char) : Bool :=
  c.isAlphanum || c == '_' || (0x410 ≤ c.toNat && c.toNat ≤ 0x44F) || c == 'Ё' || c == 'ё'

/-- The `\b` assertion before a digit: satisfied at the start of the
string or after a non-word character.  `prev` is the character
immediately before the scanner's current position. -/
def bdBefore (prev : Option Char) : Bool :=
  match prev with
  | none => true
  | some c => !wordChar c

/-- The `\b` assertion after a digit: satisfied at the end of the string
or before a non-word character. -/
def bdAfter (rest : List Char) : Bool :=
  match rest with
  | [] => true
  | c :: _ => !wordChar c

/-- Digit test at index `i` of a candidate window. -/
def digAt (r : List Char) (i : Nat) : Bool := (r.getD i ' ').isDigit

/-- The window shape of `\d{2}\.\d{2}\.\d{4}`. -/
def ddShape (r : List Char) : Bool :=
  r.length == 10 && digAt r 0 && digAt r 1 && r.getD 2 ' ' == '.' &&
    digAt r 3 && digAt r 4 && r.getD 5 ' ' == '.' &&
    digAt r 6 && digAt r 7 && digAt r 8 && digAt r 9

/-- The window shape of `(\d{4})-(\d{2})-(\d{2})`. -/
def ymdShape (r : List Char) : Bool :=
  r.length == 10 && digAt r 0 && digAt r 1 && digAt r 2 && digAt r 3 &&
    r.getD 4 ' ' == '-' && digAt r 5 && digAt r 6 && r.getD 7 ' ' == '-' &&
    digAt r 8 && digAt r 9

/-- Try to match a 10-character window with boundary assertions at the
head of `cs`; `prev` is the character before the current position. -/
def matchAt10 (shape : List Char → Bool) (prev : Option Char) (cs : List Char) :
    Option (List Char) :=
  match cs with
  | c1 :: c2 :: c3 :: c4 :: c5 :: c6 :: c7 :: c8 :: c9 :: c10 :: rest =>
    if shape [c1, c2, c3, c4, c5, c6, c7, c8, c9, c10] && bdBefore prev && bdAfter rest
    then some [c1, c2, c3, c4, c5, c6, c7, c8, c9, c10] else none
  | _ => none

/-- Left-to-right scan for the first match, as `re.search` does. -/
def search10 (shape : List Char → Bool) (prev : Option Char) (cs : List Char) :
    Option (List Char) :=
  match cs with
  | [] => none
  | c :: rest =>
    match matchAt10 shape prev (c :: rest) with
    | some r => some r
    | none => search10 shape (some c) rest

/-- Re-ordering of a matched `yyyy-mm-dd` window into `dd.mm.yyyy`
(`f"{d}.{mo}.{y}"`). -/
def ymdReorder (r : List Char) : List Char :=
  match r with
  | [y1, y2, y3, y4, _, m1, m2, _, d1, d2] =>
    [d1, d2, '.', m1, m2, '.', y1, y2, y3, y4]
  | _ => r

/-- Shallow embedding of `extract_ddmmyyyy`.  `today` stands for
`datetime.now().strftime("%d.%m.%Y")`. -/
def extract_ddmmyyyy (today : String) (s : String) : String :=
  if s.data.isEmpty then today
  else
    match search10 ddShape none (trimL s.data) with
    | some r => String.mk r
    | none =>
      match search10 ymdShape none (trimL s.data) with
      | some r => String.mk (ymdReorder r)
      | none => today

/-- Boundary condition on the text standing before an occurrence: when it
is empty the `\b` falls back to the character before the scanned region,
otherwise its last character must not be a word character. -/
def preBd (prev : Option Char) (pre : List Char) : Bool :=
  match pre.getLast? with
  | none => bdBefore prev
  | some c => !wordChar c

/-- A boundary-delimited occurrence of a `shape` window inside `cs` (at
the top level, so nothing precedes `cs`). -/
def occ10 (shape : List Char → Bool) (cs : List Char) : Prop :=
  ∃ pre r post, cs = pre ++ r ++ post ∧ shape r = true ∧
    preBd none pre = true ∧ bdAfter post = true

theorem list_len10 (r : List Char) (hlen : r.length = 10) :
    ∃ c1 c2 c3 c4 c5 c6 c7 c8 c9 c10,
      r = [c1, c2, c3, c4, c5, c6, c7, c8, c9, c10] := by
  rcases r with _ | ⟨c1, r⟩; · simp at hlen
  rcases r with _ | ⟨c2, r⟩; · simp at hlen
  rcases r with _ | ⟨c3, r⟩; · simp at hlen
  rcases r with _ | ⟨c4, r⟩; · simp at hlen
  rcases r with _ | ⟨c5, r⟩; · simp at hlen
  rcases r with _ | ⟨c6, r⟩; · simp at hlen
  rcases r with _ | ⟨c7, r⟩; · simp at hlen
  rcases r with _ | ⟨c8, r⟩; · simp at hlen
  rcases r with _ | ⟨c9, r⟩; · simp at hlen
  rcases r with _ | ⟨c10, r⟩; · simp at hlen
  rcases r with _ | ⟨c11, r⟩
  · exact ⟨c1, c2, c3, c4, c5, c6, c7, c8, c9, c10, rfl⟩
  · simp at hlen

theorem ddShape_length {r : List Char} (h : ddShape r = true) : r.length = 10 := by
  unfold ddShape at h
  simp only [Bool.and_eq_true, beq_iff_eq] at h
  exact h.1.1.1.1.1.1.1.1.1.1

theorem ymdShape_length {r : List Char} (h : ymdShape r = true) : r.length = 10 := by
  unfold ymdShape at h
  simp only [Bool.and_eq_true, beq_iff_eq] at h
  exact h.1.1.1.1.1.1.1.1.1.1

theorem matchAt10_append (shape : List Char → Bool) (prev : Option Char)
    (r post : List Char) (hlen : r.length = 10) (hs : shape r = true)
    (hb : bdBefore prev = true) (ha : bdAfter post = true) :
    matchAt10 shape prev (r ++ post) = some r := by
  obtain ⟨c1, c2, c3, c4, c5, c6, c7, c8, c9, c10, rfl⟩ := list_len10 r hlen
  simp [matchAt10, hs, hb, ha]

theorem matchAt10_some (shape : List Char → Bool) (prev : Option Char)
    (cs r : List Char) (h : matchAt10 shape prev cs = some r) :
    ∃ post, cs = r ++ post ∧ shape r = true ∧ bdBefore prev = true ∧
      bdAfter post = true := by
  unfold matchAt10 at h
  split at h
  · rename_i c1 c2 c3 c4 c5 c6 c7 c8 c9 c10 rest
    split at h
    · rename_i hcond
      simp only [Bool.and_eq_true] at hcond
      obtain rfl : [c1, c2, c3, c4, c5, c6, c7, c8, c9, c10] = r :=
        Option.some.inj h
      exact ⟨rest, by simp, hcond.1.1, hcond.1.2, hcond.2⟩
    · exact absurd h (by simp)
  · exact absurd h (by simp)

theorem search10_complete (shape : List Char → Bool)
    (hshape : ∀ r, shape r = true → r.length = 10) :
    ∀ (pre : List Char) (prev : Option Char) (r post : List Char),
      shape r = true → preBd prev pre = true → bdAfter post = true →
      ∃ r', search10 shape prev (pre ++ r ++ post) = some r' := by
  intro pre
  induction pre with
  | nil =>
    intro prev r post hs hp ha
    have hb : bdBefore prev = true := by simpa [preBd] using hp
    have hm : matchAt10 shape prev (r ++ post) = some r :=
      matchAt10_append shape prev r post (hshape r hs) hs hb ha
    obtain ⟨c1, c2, c3, c4, c5, c6, c7, c8, c9, c10, rfl⟩ :=
      list_len10 r (hshape r hs)
    refine ⟨[c1, c2, c3, c4, c5, c6, c7, c8, c9, c10], ?_⟩
    simp only [List.nil_append, List.cons_append] at hm ⊢
    rw [search10, hm]
  | cons c pre' ih =>
    intro prev r post hs hp ha
    have hp' : preBd (some c) pre' = true := by
      cases pre' with
      | nil => simpa [preBd, bdBefore, List.getLast?] using hp
      | cons d t => simpa [preBd, List.getLast?_cons_cons] using hp
    simp only [List.cons_append]
    cases hm : matchAt10 shape prev (c :: (pre' ++ r ++ post)) with
    | some r0 => exact ⟨r0, by rw [search10, hm]⟩
    | none =>
      obtain ⟨r', hr'⟩ := ih (some c) r post hs hp' ha
      exact ⟨r', by rw [search10, hm]; exact hr'⟩

theorem search10_sound (shape : List Char → Bool) :
    ∀ (cs : List Char) (prev : Option Char) (r : List Char),
      search10 shape prev cs = some r →
      ∃ pre post, cs = pre ++ r ++ post ∧ shape r = true ∧
        preBd prev pre = true ∧ bdAfter post = true := by
  intro cs
  induction cs with
  | nil => intro prev r h; simp [search10] at h
  | cons c rest ih =>
    intro prev r h
    rw [search10] at h
    cases hm : matchAt10 shape prev (c :: rest) with
    | some r0 =>
      rw [hm] at h
      obtain rfl : r0 = r := Option.some.inj h
      obtain ⟨post, hcs, hs, hb, ha⟩ :=
        matchAt10_some shape prev (c :: rest) r0 hm
      exact ⟨[], post, by simpa using hcs, hs, by simpa [preBd] using hb, ha⟩
    | none =>
      rw [hm] at h
      obtain ⟨pre, post, hcs, hs, hp, ha⟩ := ih (some c) r h
      refine ⟨c :: pre, post, by simp [hcs], hs, ?_, ha⟩
      cases pre with
      | nil => simpa [preBd, bdBefore, List.getLast?] using hp
      | cons d t => simpa [preBd, List.getLast?_cons_cons] using hp

/-- C5 counterexample: `"101.05.2024"` contains the `dd.mm.yyyy` substring
`"01.05.2024"`, yet `extract_ddmmyyyy` does not return it (the `\b` word
boundary fails after the leading `1`), falling back to today's date. -/
theorem extract_ddmmyyyy_counter :
    ("01.05.2024".data <:+: trimL ("101.05.2024").data) ∧
    extract_ddmmyyyy "31.12.2099" "101.05.2024" = "31.12.2099" ∧
    ("31.12.2099" : String) ≠ "01.05.2024" :=
  ⟨⟨['1'], [], by decide⟩, by decide, by decide⟩

/-- C5 (amended): `extract_ddmmyyyy` maps `"2024-05-01 09:00:00"` to
`"01.05.2024"`, returns `"01.05.2024"` unchanged, and returns today's
date for the empty string; more generally a `dd.mm.yyyy` substring that is
delimited by word boundaries (not adjacent to a letter, digit or
underscore) is returned as-is, and in the absence of such a substring a
word-boundary-delimited `yyyy-mm-dd` substring (with optional time around
it) is re-ordered to `dd.mm.yyyy`. -/
theorem extract_ddmmyyyy_spec :
    (∀ today : String, extract_ddmmyyyy today "2024-05-01 09:00:00" = "01.05.2024") ∧
    (∀ today : String, extract_ddmmyyyy today "01.05.2024" = "01.05.2024") ∧
    (∀ today : String, extract_ddmmyyyy today "" = today) ∧
    (∀ today s : String, occ10 ddShape (trimL s.data) →
      ∃ r, ddShape r = true ∧ r <:+: trimL s.data ∧
        extract_ddmmyyyy today s = String.mk r) ∧
    (∀ today s : String, ¬ occ10 ddShape (trimL s.data) →
      occ10 ymdShape (trimL s.data) →
      ∃ r, ymdShape r = true ∧ r <:+: trimL s.data ∧
        extract_ddmmyyyy today s = String.mk (ymdReorder r)) := by
  refine ⟨fun t => rfl, fun t => rfl, fun t => rfl, ?_, ?_⟩
  · intro today s hocc
    obtain ⟨pre, r, post, hcs, hs, hp, ha⟩ := hocc
    obtain ⟨r', hr'⟩ := search10_complete ddShape (fun r h => ddShape_length h)
      pre none r post hs hp ha
    rw [← hcs] at hr'
    obtain ⟨pre', post', hcs', hs', _, _⟩ := search10_sound ddShape _ none r' hr'
    have hne : s.data.isEmpty = false := by
      cases hd : s.data with
      | nil =>
        rw [hd] at hcs
        have : r.length = 10 := ddShape_length hs
        simp [trimL] at hcs
        rw [hcs.2.1] at this
        simp at this
      | cons a l => simp
    refine ⟨r', hs', ⟨pre', post', by rw [← hcs']⟩, ?_⟩
    unfold extract_ddmmyyyy
    rw [hne, hr']
    simp
  · intro today s hnocc hocc
    have hdd : search10 ddShape none (trimL s.data) = none := by
      cases hsearch : search10 ddShape none (trimL s.data) with
      | none => rfl
      | some r0 =>
        obtain ⟨pre', post', hcs', hs', hp', ha'⟩ :=
          search10_sound ddShape _ none r0 hsearch
        exact absurd ⟨pre', r0, post', hcs', hs', hp', ha'⟩ hnocc
    obtain ⟨pre, r, post, hcs, hs, hp, ha⟩ := hocc
    obtain ⟨r', hr'⟩ := search10_complete ymdShape (fun r h => ymdShape_length h)
      pre none r post hs hp ha
    rw [← hcs] at hr'
    obtain ⟨pre', post', hcs', hs', _, _⟩ := search10_sound ymdShape _ none r' hr'
    have hne : s.data.isEmpty = false := by
      cases hd : s.data with
      | nil =>
        rw [hd] at hcs
        have : r.length = 10 := ymdShape_length hs
        simp [trimL] at hcs
        rw [hcs.2.1] at this
        simp at this
      | cons a l => simp
    refine ⟨r', hs', ⟨pre', post', by rw [← hcs']⟩, ?_⟩
    unfold extract_ddmmyyyy
    rw [hne, hdd, hr']
    simp

/-- C5 witness: a concrete run through the general branch of
`extract_ddmmyyyy_spec` — the date inside `"ab 01.05.2024"` is returned
as-is. -/
theorem extract_ddmmyyyy_spec_witness :
    ∃ r, ddShape r = true ∧ r <:+: trimL ("ab 01.05.2024").data ∧
      extract_ddmmyyyy "31.12.2099" "ab 01.05.2024" = String.mk r :=
  extract_ddmmyyyy_spec.2.2.2.1 "31.12.2099" "ab 01.05.2024"
    ⟨['a', 'b', ' '], "01.05.2024".data, [], by decide, by decide, by decide,
      by decide⟩

/-! ### The registration name guard (bot.py lines 1341-1353)

```python
if state == "awaiting_name":
    name = (message.text or "").strip()
    if len(name) < 2:
        await message.answer("Имя должно быть длиннее. ...")
        return
    if not re.fullmatch(r"[A-Za-zА-Яа-яЁё]+(?:-[A-Za-zА-Яа-яЁё]+)?\s+"
                        r"[A-Za-zА-Яа-яЁё]+(?:-[A-Za-zА-Яа-яЁё]+)?", name):
        await message.answer("Пожалуйста, введи имя и фамилию двумя словами ...")
        return
    await fsm.update_data(uid, name=name)
    await fsm.set_state(uid, "awaiting_phone")
```

The regex recogniser below is deterministic: each `[...]+` is matched
greedily (taking fewer letters would leave a letter where the pattern next
requires `-`, `\s` or the end, so greedy is complete), and skipping the
optional `(?:-[...]+)?` when a `-` follows without letters leaves a `-`
where `\s+` or the end is required, so both backtracking alternatives
fail exactly when the deterministic match fails. -/

/-- The character class `[A-Za-zА-Яа-яЁё]`. -/
def isNameLetter (c : Char) : Bool :=
  (0x41 ≤ c.toNat && c.toNat ≤ 0x5A) || (0x61 ≤ c.toNat && c.toNat ≤ 0x7A) ||
    (0x410 ≤ c.toNat && c.toNat ≤ 0x44F) || c == 'Ё' || c == 'ё'

/-- Python's `\s` (space, tab, CR, LF, vertical tab, form feed). -/
def pySpace (c : Char) : Bool :=
  c.isWhitespace || c.toNat == 0xB || c.toNat == 0xC

/-- Consume one name token `[A-Za-zА-Яа-яЁё]+(?:-[A-Za-zА-Яа-яЁё]+)?` from
the front of `cs`, returning the rest of the input. -/
def nameTokenRest (cs : List Char) : Option (List Char) :=
  if (cs.takeWhile isNameLetter).isEmpty then none
  else
    match cs.dropWhile isNameLetter with
    | '-' :: r2 =>
      if (r2.takeWhile isNameLetter).isEmpty then some (cs.dropWhile isNameLetter)
      else some (r2.dropWhile isNameLetter)
    | _ => some (cs.dropWhile isNameLetter)

/-- `re.fullmatch` of the two-token name pattern. -/
def name_fullmatch (cs : List Char) : Bool :=
  match nameTokenRest cs with
  | none => false
  | some r1 =>
    if (r1.takeWhile pySpace).isEmpty then false
    else
      match nameTokenRest (r1.dropWhile pySpace) with
      | none => false
      | some r3 => r3.isEmpty

/-- The slice of the per-user session that the registration guard touches. -/
structure RegSession where
  state : Option String
  name : Option String
deriving DecidableEq

/-- Shallow embedding of `text_handler`'s `awaiting_name` branch: returns
the updated session and the text replied to the user. -/
def handle_awaiting_name (sess : RegSession) (text : String) : RegSession × String :=
  if (pyStrip text).length < 2 then
    (sess, "Имя должно быть длиннее. Попробуй снова, пожалуйста.")
  else if ¬ (name_fullmatch (pyStrip text).data = true) then
    (sess, "Пожалуйста, введи имя и фамилию двумя словами (например: Иван Иванов).")
  else
    ({ state := some "awaiting_phone", name := some (pyStrip text) },
      "Отлично! Теперь отправь, пожалуйста, номер телефона (или нажми кнопку).")

theorem nameTokenRest_length_lt {cs r : List Char}
    (h : nameTokenRest cs = some r) : r.length < cs.length := by
  unfold nameTokenRest at h
  by_cases hp : (cs.takeWhile isNameLetter).isEmpty
  · rw [if_pos hp] at h; exact absurd h (by simp)
  · rw [if_neg hp] at h
    have hsplit := congrArg List.length (List.takeWhile_append_dropWhile isNameLetter cs)
    rw [List.length_append] at hsplit
    have hp1 : 1 ≤ (cs.takeWhile isNameLetter).length := by
      cases hq : cs.takeWhile isNameLetter with
      | nil => rw [hq] at hp; simp at hp
      | cons a l => simp [hq]
    have hdw : (cs.dropWhile isNameLetter).length < cs.length := by omega
    split at h
    · rename_i r2 heq
      split at h
      · have hr : cs.dropWhile isNameLetter = r := Option.some.inj h
        rw [← hr]; exact hdw
      · have hr : r2.dropWhile isNameLetter = r := Option.some.inj h
        have h1 : (r2.dropWhile isNameLetter).length ≤ r2.length :=
          (List.dropWhile_sublist isNameLetter).length_le
        have h2 : r2.length < (cs.dropWhile isNameLetter).length := by
          rw [heq]; simp
        rw [← hr]; omega
    · have hr : cs.dropWhile isNameLetter = r := Option.some.inj h
      rw [← hr]; exact hdw

theorem name_fullmatch_length {cs : List Char} (h : name_fullmatch cs = true) :
    2 ≤ cs.length := by
  unfold name_fullmatch at h
  split at h
  · exact absurd h (by simp)
  · rename_i r1 h1
    have hlt : r1.length < cs.length := nameTokenRest_length_lt h1
    by_cases hsp : (r1.takeWhile pySpace).isEmpty
    · rw [if_pos hsp] at h; exact absurd h (by simp)
    · have hr1 : 1 ≤ r1.length := by
        cases hq : r1 with
        | nil => rw [hq] at hsp; simp at hsp
        | cons a l => simp [hq]
      omega

/-- C6: the registration name guard accepts exactly the (trimmed) strings
matching the two-token name pattern: `"Иван Иванов"` is accepted, the name
is stored and the state advances to `awaiting_phone`; `"Иван"` and
`"123 456"` are rejected with a corrective re-prompt and no state change. -/
theorem name_guard_spec (sess : RegSession)
    (h : sess.state = some "awaiting_name") :
    ((handle_awaiting_name sess "Иван Иванов").1.state = some "awaiting_phone" ∧
      (handle_awaiting_name sess "Иван Иванов").1.name = some "Иван Иванов") ∧
    ((handle_awaiting_name sess "Иван").1 = sess ∧
      (handle_awaiting_name sess "Иван").2 =
        "Пожалуйста, введи имя и фамилию двумя словами (например: Иван Иванов).") ∧
    ((handle_awaiting_name sess "123 456").1 = sess ∧
      (handle_awaiting_name sess "123 456").2 =
        "Пожалуйста, введи имя и фамилию двумя словами (например: Иван Иванов).") ∧
    (∀ t : String,
      ((handle_awaiting_name sess t).1.state = some "awaiting_phone" ↔
        name_fullmatch (pyStrip t).data = true)) := by
  refine ⟨⟨rfl, rfl⟩, ⟨rfl, rfl⟩, ⟨rfl, rfl⟩, ?_⟩
  intro t
  by_cases hfm : name_fullmatch (pyStrip t).data = true
  · have hlen2 : 2 ≤ (pyStrip t).length := name_fullmatch_length hfm
    unfold handle_awaiting_name
    rw [if_neg (by omega), if_neg (by simp [hfm])]
    simp [hfm]
  · unfold handle_awaiting_name
    by_cases hl : (pyStrip t).length < 2
    · rw [if_pos hl]
      exact ⟨fun hx => absurd (h ▸ hx) (by decide), fun hx => absurd hx hfm⟩
    · rw [if_neg hl, if_pos hfm]
      exact ⟨fun hx => absurd (h ▸ hx) (by decide), fun hx => absurd hx hfm⟩

/-- C6 witness: the guard theorem applied to a concrete session. -/
theorem name_guard_spec_witness :
    (handle_awaiting_name ⟨some "awaiting_name", none⟩ "Иван Иванов").1.state =
      some "awaiting_phone" :=
  (name_guard_spec ⟨some "awaiting_name", none⟩ rfl).1.1

/-! ### `FSMStorage` (bot.py lines 590-650)

One SQLite table `fsm_states(user_id INTEGER PRIMARY KEY, state TEXT,
data TEXT)`.  A row is modelled as a pair of nullable cells; the JSON
`data` cell is modelled as the dictionary it (de)serialises
(`'{}'` is `some []`, SQL `NULL` is `none`; `json.dumps`/`json.loads`
round-trip losslessly on the dictionaries this program stores, and
`get_data` treats an unparsable or `NULL` cell as the empty dict).
The value type of the dictionary is kept abstract (`α`). -/

/-- One row of `fsm_states`, minus the key. -/
structure FSMRow (α : Type) where
  state : Option String
  data : Option (List (String × α))

/-- The `fsm_states` table (keyed association list; `user_id` is a
primary key, so at most one row per id is ever created). -/
def FSMStore (α : Type) : Type := List (Int × FSMRow α)

/-- `SELECT ... FROM fsm_states WHERE user_id = ?`. -/
def rowOf {α : Type} (db : FSMStore α) (uid : Int) : Option (FSMRow α) :=
  match db with
  | [] => none
  | e :: rest => if e.1 == uid then some e.2 else rowOf rest uid

/-- `FSMStorage.get_state`. -/
def get_state {α : Type} (db : FSMStore α) (uid : Int) : Option String :=
  match rowOf db uid with
  | none => none
  | some r => r.state

/-- `FSMStorage.get_data` (a missing row, a `NULL` cell, or an unparsable
cell all give the empty dict). -/
def get_data {α : Type} (db : FSMStore α) (uid : Int) : List (String × α) :=
  match rowOf db uid with
  | none => []
  | some r => r.data.getD []

/-- The `INSERT ... VALUES (?, ?, COALESCE((SELECT data ...), '\x7b\x7d'))
ON CONFLICT(user_id) DO UPDATE SET state=excluded.state` statement of
`set_state`: an existing row keeps its data and gets the new state, an
absent row is inserted with empty data. -/
def setStateRow {α : Type} (db : FSMStore α) (uid : Int) (s : String) : FSMStore α :=
  match db with
  | [] => [(uid, ⟨some s, some []⟩)]
  | e :: rest =>
    if e.1 == uid then (e.1, ⟨some s, e.2.data⟩) :: rest
    else e :: setStateRow rest uid s

/-- `FSMStorage.set_state`; `set_state(uid, None)` runs
`DELETE FROM fsm_states WHERE user_id = ?`. -/
def set_state {α : Type} (db : FSMStore α) (uid : Int) (st : Option String) :
    FSMStore α :=
  match st with
  | none => db.filter (fun e => !(e.1 == uid))
  | some s => setStateRow db uid s

/-- `FSMStorage.clear`: the same `DELETE`. -/
def clear {α : Type} (db : FSMStore α) (uid : Int) : FSMStore α :=
  db.filter (fun e => !(e.1 == uid))

/-- Python dict lookup (`data.get(k)`). -/
def dictGet {α : Type} (d : List (String × α)) (k : String) : Option α :=
  match d with
  | [] => none
  | e :: rest => if e.1 == k then some e.2 else dictGet rest k

/-- Python dict assignment `d[k] = v`: overwrite in place, append if new. -/
def dictInsert {α : Type} (d : List (String × α)) (k : String) (v : α) :
    List (String × α) :=
  match d with
  | [] => [(k, v)]
  | e :: rest => if e.1 == k then (k, v) :: rest else e :: dictInsert rest k v

/-- Python `data.update(kwargs)`: a shallow merge. -/
def dictMerge {α : Type} (d upd : List (String × α)) : List (String × α) :=
  upd.foldl (fun acc e => dictInsert acc e.1 e.2) d

/-- The `INSERT ... VALUES (?, NULL, ?) ON CONFLICT(user_id) DO UPDATE SET
data=excluded.data` statement of `update_data`: an existing row keeps its
state and gets the new data, an absent row is inserted with `NULL` state. -/
def updateDataRow {α : Type} (db : FSMStore α) (uid : Int)
    (d : List (String × α)) : FSMStore α :=
  match db with
  | [] => [(uid, ⟨none, some d⟩)]
  | e :: rest =>
    if e.1 == uid then (e.1, ⟨e.2.state, some d⟩) :: rest
    else e :: updateDataRow rest uid d

/-- `FSMStorage.update_data(uid, **kwargs)`: read, shallow-merge, write. -/
def update_data {α : Type} (db : FSMStore α) (uid : Int)
    (kw : List (String × α)) : FSMStore α :=
  updateDataRow db uid (dictMerge (get_data db uid) kw)

theorem rowOf_setStateRow_self {α : Type} (db : FSMStore α) (uid : Int)
    (s : String) :
    rowOf (setStateRow db uid s) uid =
      some ⟨some s, match rowOf db uid with
                    | some r => r.data
                    | none => some []⟩ := by
  induction db with
  | nil => simp [setStateRow, rowOf]
  | cons e rest ih =>
    by_cases he : e.1 == uid
    · simp [setStateRow, rowOf, he]
    · simp only [setStateRow, rowOf, he, if_false, Bool.false_eq_true]
      exact ih

theorem rowOf_updateDataRow_self {α : Type} (db : FSMStore α) (uid : Int)
    (d : List (String × α)) :
    rowOf (updateDataRow db uid d) uid =
      some ⟨match rowOf db uid with
            | some r => r.state
            | none => none, some d⟩ := by
  induction db with
  | nil => simp [updateDataRow, rowOf]
  | cons e rest ih =>
    by_cases he : e.1 == uid
    · simp [updateDataRow, rowOf, he]
    · simp only [updateDataRow, rowOf, he, if_false, Bool.false_eq_true]
      exact ih

theorem dictGet_cons {α : Type} (e : String × α) (rest : List (String × α))
    (k : String) :
    dictGet (e :: rest) k = if e.1 == k then some e.2 else dictGet rest k := rfl

theorem dictInsert_cons {α : Type} (e : String × α) (rest : List (String × α))
    (k : String) (v : α) :
    dictInsert (e :: rest) k v =
      if e.1 == k then (k, v) :: rest else e :: dictInsert rest k v := rfl

theorem dictGet_dictInsert_self {α : Type} (d : List (String × α)) (k : String)
    (v : α) : dictGet (dictInsert d k v) k = some v := by
  induction d with
  | nil => simp [dictInsert, dictGet]
  | cons e rest ih =>
    by_cases he : (e.1 == k) = true
    · simp [dictInsert_cons, dictGet_cons, he]
    · simp only [Bool.not_eq_true] at he
      simp [dictInsert_cons, dictGet_cons, he, ih]

theorem dictGet_dictInsert_other {α : Type} (d : List (String × α))
    (k k' : String) (v : α) (hne : (k == k') = false) :
    dictGet (dictInsert d k v) k' = dictGet d k' := by
  induction d with
  | nil => simp [dictInsert, dictGet, hne]
  | cons e rest ih =>
    by_cases he : (e.1 == k) = true
    · have h1 : e.1 = k := by simpa using he
      have h2 : (e.1 == k') = false := by rw [h1]; exact hne
      simp [dictInsert_cons, dictGet_cons, he, h2, hne]
    · simp only [Bool.not_eq_true] at he
      simp [dictInsert_cons, dictGet_cons, he, ih]

theorem dictGet_none_of_not_mem {α : Type} (d : List (String × α)) (k : String)
    (h : ¬ k ∈ d.map Prod.fst) : dictGet d k = none := by
  induction d with
  | nil => rfl
  | cons e rest ih =>
    simp only [List.map_cons, List.mem_cons] at h
    push_neg at h
    have he : (e.1 == k) = false := by
      cases hq : e.1 == k
      · rfl
      · exact absurd (show e.1 = k by simpa using hq).symm h.1
    simp [dictGet_cons, he, ih h.2]

theorem dictGet_dictMerge_of_none {α : Type} (kw : List (String × α)) :
    ∀ (d : List (String × α)) (k : String), dictGet kw k = none →
      dictGet (dictMerge d kw) k = dictGet d k := by
  induction kw with
  | nil => intro d k _; rfl
  | cons e rest ih =>
    intro d k hk
    rw [dictGet_cons] at hk
    have hne : (e.1 == k) = false := by
      cases hq : e.1 == k
      · rfl
      · rw [if_pos hq] at hk; exact absurd hk (by simp)
    rw [if_neg (by simp [hne])] at hk
    have hmerge : dictMerge d (e :: rest) = dictMerge (dictInsert d e.1 e.2) rest := rfl
    rw [hmerge, ih _ k hk, dictGet_dictInsert_other _ _ _ _ hne]

theorem dictGet_dictMerge_of_some {α : Type} (kw : List (String × α)) :
    ∀ (d : List (String × α)) (k : String) (v : α),
      (kw.map Prod.fst).Nodup → dictGet kw k = some v →
      dictGet (dictMerge d kw) k = some v := by
  induction kw with
  | nil => intro d k v _ hk; exact absurd hk (by simp [dictGet])
  | cons e rest ih =>
    intro d k v hnd hk
    simp only [List.map_cons, List.nodup_cons] at hnd
    have hmerge : dictMerge d (e :: rest) = dictMerge (dictInsert d e.1 e.2) rest := rfl
    rw [dictGet_cons] at hk
    by_cases he : (e.1 == k) = true
    · rw [if_pos he] at hk
      have hkv : some e.2 = some v := hk
      have h1 : e.1 = k := by simpa using he
      have hmem := hnd.1
      rw [h1] at hmem
      have hrest : dictGet rest k = none :=
        dictGet_none_of_not_mem rest k hmem
      rw [hmerge, dictGet_dictMerge_of_none rest _ k hrest, h1,
        dictGet_dictInsert_self]
      exact hkv
    · rw [if_neg (by simpa using he)] at hk
      rw [hmerge]
      exact ih _ k v hnd.2 hk

/-- C7: `set_state(uid, s)` with a non-`None` state never modifies the
stored context data for `uid` (existing data is preserved, an absent row
gets the empty dict), `set_state(uid, None)` is observationally the same
deletion as `clear`, and `update_data` is a shallow merge: keys of the
update overwrite, every other previously stored key is returned unchanged
by a subsequent `get_data`. -/
theorem fsm_storage_spec (α : Type) (db : FSMStore α) (uid : Int) (s : String)
    (kw : List (String × α)) (hnd : (kw.map Prod.fst).Nodup) :
    (get_data (set_state db uid (some s)) uid = get_data db uid ∧
      get_state (set_state db uid (some s)) uid = some s) ∧
    (∀ u : Int, get_state (set_state db uid none) u = get_state (clear db uid) u ∧
      get_data (set_state db uid none) u = get_data (clear db uid) u) ∧
    (∀ k v, dictGet kw k = some v →
      dictGet (get_data (update_data db uid kw) uid) k = some v) ∧
    (∀ k, dictGet kw k = none →
      dictGet (get_data (update_data db uid kw) uid) k =
        dictGet (get_data db uid) k) := by
  have hupd : get_data (update_data db uid kw) uid =
      dictMerge (get_data db uid) kw := by
    unfold update_data get_data
    rw [rowOf_updateDataRow_self]
    rfl
  refine ⟨⟨?_, ?_⟩, fun u => ⟨rfl, rfl⟩, ?_, ?_⟩
  · unfold get_data set_state
    rw [rowOf_setStateRow_self]
    cases h : rowOf db uid <;> simp
  · unfold get_state set_state
    rw [rowOf_setStateRow_self]
  · intro k v hk
    rw [hupd]
    exact dictGet_dictMerge_of_some kw _ k v hnd hk
  · intro k hk
    rw [hupd]
    exact dictGet_dictMerge_of_none kw _ k hk

/-- C7 witness: the storage theorem applied to a concrete store. -/
theorem fsm_storage_spec_witness :
    dictGet (get_data (update_data
        ([(7, ⟨some "menu", some [("qty", 2)]⟩)] : FSMStore Int)
        7 [("qty", 5), ("addr", 1)]) 7) "qty" = some 5 :=
  (fsm_storage_spec Int [(7, ⟨some "menu", some [("qty", 2)]⟩)] 7 "menu"
    [("qty", 5), ("addr", 1)] (by decide)).2.2.1 "qty" 5 (by decide)

/-! ### The ledger and session data model

A row of the "Меню" sheet carries the columns "День" (day), "Блюда"
(dish), "Фото" (photo) and "Количество" (quantity).  The quantity cell is
modelled by the integer that `get_quantity_by_row` reads from it
(`int(str(val).strip())`, with `0` for an unparsable cell);
`set_quantity_by_row` writes integers back, so the round trip is the
identity.  Row indices are 0-based list positions (the source's 1-based
gspread indices shifted by the header row). -/

/-- A row of the "Меню" sheet; also the element type of the per-user
cached menu snapshot, which stores these very records. -/
structure MenuRow where
  day : String
  dish : String
  photo : String
  qty : Int
deriving DecidableEq

/-- A row of the "Клиенты" sheet (the columns the flow reads). -/
structure ClientRow where
  telegram_id : String
  name : String
  phone : String
deriving DecidableEq

/-- A row appended to the "Заказы" sheet by `append_order`. -/
structure OrderRow where
  date : String
  user_id : String
  name : String
  phone : String
  dish : String
  tariff : String
  address : Option String
  timeslot : Option String
  qty : Int
  payment_label : String
deriving DecidableEq

/-- A row appended to the "Заказы свыше" sheet by `append_overorder`. -/
structure OverRow where
  date : String
  user_id : String
  name : String
  phone : String
  dish : String
  address : String
  timeslot : String
deriving DecidableEq

/-- The spreadsheet state shared by all users. -/
structure World where
  menu : List MenuRow
  clients : List ClientRow
  orders : List OrderRow
  overorders : List OverRow
deriving DecidableEq

/-- The slice of one user's FSM context (and state) that the ordering
flow reads and writes, as a typed record. -/
structure SessData where
  state : Option String
  chosen_dish : Option String
  chosen_tariff : Option String
  chosen_address : Option String
  chosen_time : Option String
  qty : Option Int
  menu : List MenuRow
  menu_idx : Int
deriving DecidableEq

/-! ### Menu cursor navigation (bot.py lines 1427-1454)

```python
@router.callback_query(F.data == "menu_prev")
async def cb_menu_prev(call):
    data = await fsm.get_data(uid)
    menu = data.get("menu", [])
    if not menu:
        return await call.answer("Меню пустое.")
    if len(menu) == 1:
        return await call.answer("Сегодня только одно блюдо 🙂")
    idx = (data.get("menu_idx", 0) - 1) % len(menu)
    await fsm.update_data(uid, menu_idx=idx)
    await show_menu_item(...)
```

`show_menu_item` only reads the session, so the handler's full session
effect is the `menu_idx` update; the FSM state is never touched.
Python's `%` on a positive modulus agrees with `Int.emod`. -/

/-- What the navigation handlers answer to the user. -/
inductive NavOut
  | emptyNotice
  | singleNotice
  | shown
deriving DecidableEq

/-- Shallow embedding of `cb_menu_prev`. -/
def cb_menu_prev (sd : SessData) : SessData × NavOut :=
  if sd.menu.isEmpty then (sd, .emptyNotice)
  else if sd.menu.length == 1 then (sd, .singleNotice)
  else ({ sd with menu_idx := (sd.menu_idx - 1) % (sd.menu.length : Int) }, .shown)

/-- Shallow embedding of `cb_menu_next`. -/
def cb_menu_next (sd : SessData) : SessData × NavOut :=
  if sd.menu.isEmpty then (sd, .emptyNotice)
  else if sd.menu.length == 1 then (sd, .singleNotice)
  else ({ sd with menu_idx := (sd.menu_idx + 1) % (sd.menu.length : Int) }, .shown)

theorem emod_sub_one_add_one (n i : Int) (h1 : 1 ≤ n) (h0 : 0 ≤ i)
    (hn : i < n) : ((i + 1) % n - 1) % n = i := by
  by_cases hi : i + 1 = n
  · have ha : (i + 1) % n = 0 := by rw [hi]; exact Int.emod_self
    rw [ha]
    have hb : (0 - 1 : Int) = (n - 1) + n * (-1) := by ring
    rw [hb, Int.add_mul_emod_self_left, Int.emod_eq_of_lt (by omega) (by omega)]
    omega
  · have ha : (i + 1) % n = i + 1 := Int.emod_eq_of_lt (by omega) (by omega)
    rw [ha]
    simp only [Int.add_sub_cancel]
    exact Int.emod_eq_of_lt h0 hn

/-- C8: for a cached menu of length `n ≥ 2`, `menu_prev` sets the cursor
to `(i - 1) mod n` and `menu_next` to `(i + 1) mod n`, neither touching
the state or the snapshot; for `n = 1` both are no-ops that only answer
with a notice; and `menu_next` followed by `menu_prev` restores the
original cursor. -/
theorem menu_nav_spec (sd : SessData) :
    (2 ≤ sd.menu.length →
      (cb_menu_prev sd).1 =
        { sd with menu_idx := (sd.menu_idx - 1) % (sd.menu.length : Int) } ∧
      (cb_menu_next sd).1 =
        { sd with menu_idx := (sd.menu_idx + 1) % (sd.menu.length : Int) } ∧
      (cb_menu_prev sd).1.state = sd.state ∧
      (cb_menu_next sd).1.state = sd.state ∧
      (cb_menu_prev sd).1.menu = sd.menu ∧
      (cb_menu_next sd).1.menu = sd.menu) ∧
    (sd.menu.length = 1 →
      cb_menu_prev sd = (sd, NavOut.singleNotice) ∧
      cb_menu_next sd = (sd, NavOut.singleNotice)) ∧
    (1 ≤ sd.menu.length → 0 ≤ sd.menu_idx → sd.menu_idx < sd.menu.length →
      (cb_menu_prev (cb_menu_next sd).1).1.menu_idx = sd.menu_idx) := by
  refine ⟨?_, ?_, ?_⟩
  · intro h2
    have hne : sd.menu.isEmpty = false := by
      cases hq : sd.menu with
      | nil => rw [hq] at h2; simp at h2
      | cons a l => simp
    have hone : (sd.menu.length == 1) = false := by
      simp only [beq_eq_false_iff_ne]
      omega
    unfold cb_menu_prev cb_menu_next
    rw [hne, hone]
    simp
  · intro h1
    have hne : sd.menu.isEmpty = false := by
      cases hq : sd.menu with
      | nil => rw [hq] at h1; simp at h1
      | cons a l => simp
    have hone : (sd.menu.length == 1) = true := by simpa using h1
    unfold cb_menu_prev cb_menu_next
    rw [hne, hone]
    simp
  · intro h1 h0 hn
    by_cases h2 : 2 ≤ sd.menu.length
    · have hne : sd.menu.isEmpty = false := by
        cases hq : sd.menu with
        | nil => rw [hq] at h2; simp at h2
        | cons a l => simp
      have hone : (sd.menu.length == 1) = false := by
        simp only [beq_eq_false_iff_ne]
        omega
      simp only [cb_menu_prev, cb_menu_next, hne, hone, Bool.false_eq_true,
        if_false]
      exact emod_sub_one_add_one (sd.menu.length : Int) sd.menu_idx
        (by exact_mod_cast h1) h0 (by exact_mod_cast hn)
    · have h1' : sd.menu.length = 1 := by omega
      have hne : sd.menu.isEmpty = false := by
        cases hq : sd.menu with
        | nil => rw [hq] at h1'; simp at h1'
        | cons a l => simp
      have hone : (sd.menu.length == 1) = true := by simpa using h1'
      simp [cb_menu_prev, cb_menu_next, hne, hone]

/-- C8 witness: a concrete three-item snapshot round-trips the cursor. -/
theorem menu_nav_spec_witness :
    (cb_menu_prev (cb_menu_next
      ⟨some "menu", none, none, none, none, none,
        [⟨"01.05.2024", "a", "", 3⟩, ⟨"01.05.2024", "b", "", 2⟩,
          ⟨"01.05.2024", "c", "", 1⟩], 2⟩).1).1.menu_idx = 2 :=
  (menu_nav_spec _).2.2 (by decide) (by decide) (by decide)

/-! ### Sheet operations (bot.py lines 243-263, 290-350, 517-555)

`find_menu_row_by_day_and_dish` scans the "Меню" rows top to bottom and
returns the first whose day cell (normalised through `extract_ddmmyyyy`)
and dish cell (stripped and lower-cased) match the requested pair.
`get_quantity_by_row` / `set_quantity_by_row` read and write the
"Количество" cell of a row. -/

/-- The row predicate of `find_menu_row_by_day_and_dish`: the day cell is
stripped, pushed through `extract_ddmmyyyy` and compared with the
normalised wanted day; the dish cell is stripped/lower-cased and compared
with the normalised wanted dish. -/
def menuRowMatches (fb want_day want_dish : String) (r : MenuRow) : Bool :=
  extract_ddmmyyyy fb (pyStrip r.day) == want_day && strNorm r.dish == want_dish

/-- First row satisfying `p`, with its 0-based index. -/
def findMenuRowAux (p : MenuRow → Bool) : List MenuRow → Option (Nat × MenuRow)
  | [] => none
  | r :: rs =>
    if p r then some (0, r)
    else (findMenuRowAux p rs).map (fun x => (x.1 + 1, x.2))

/-- `GoogleSheetsClient.find_menu_row_by_day_and_dish`
(`want_day = extract_ddmmyyyy(day_name)`,
`want_dish = str(dish_name or "").strip().lower()`). -/
def find_menu_row (fb : String) (menu : List MenuRow)
    (day_name dish_name : String) : Option (Nat × MenuRow) :=
  findMenuRowAux
    (menuRowMatches fb (extract_ddmmyyyy fb day_name) (strNorm dish_name)) menu

/-- `GoogleSheetsClient.get_quantity_by_row` (out-of-range reads, which
the flow never performs, default to 0 like an unparsable cell). -/
def get_quantity_by_row (menu : List MenuRow) (i : Nat) : Int :=
  match menu, i with
  | [], _ => 0
  | r :: _, 0 => r.qty
  | _ :: rs, j + 1 => get_quantity_by_row rs j

/-- `GoogleSheetsClient.set_quantity_by_row`: write the quantity cell of
row `i`, leaving every other cell alone. -/
def setQtyAt : List MenuRow → Nat → Int → List MenuRow
  | [], _, _ => []
  | r :: rs, 0, v => { r with qty := v } :: rs
  | r :: rs, j + 1, v => r :: setQtyAt rs j v

/-- The quantity coercion at the top of `reserve_portions_for_today` and
`release_portions_for_today`:
```python
try:
    need = int(qty)
except Exception:
    need = 1
if need <= 0:
    need = 1
```
`none` stands for an argument `int()` cannot parse. -/
def coerceQty (qa : Option Int) : Int :=
  match qa with
  | none => 1
  | some n => if n ≤ 0 then 1 else n

/-- Shallow embedding of `reserve_portions_for_today`: returns the
updated "Меню" sheet, the success flag and the error message.  `today`
stands for `datetime.now().strftime("%Y-%m-%d %H:%M:%S")`. -/
def reserve_portions_for_today (fb today : String) (menu : List MenuRow)
    (dish_name : String) (qa : Option Int) :
    List MenuRow × Bool × Option String :=
  match find_menu_row fb menu today dish_name with
  | none => (menu, false, some "Позиция меню не найдена.")
  | some (i, _) =>
    let current := get_quantity_by_row menu i
    let need := coerceQty qa
    if current < need then
      (menu, false, some ("Доступно только " ++ toString current ++ " шт."))
    else
      (setQtyAt menu i (current - need), true, none)

/-- Shallow embedding of `release_portions_for_today`. -/
def release_portions_for_today (fb today : String) (menu : List MenuRow)
    (dish_name : String) (qa : Option Int) : List MenuRow :=
  match find_menu_row fb menu today dish_name with
  | none => menu
  | some (i, _) =>
    setQtyAt menu i (get_quantity_by_row menu i + coerceQty qa)

theorem get_setQtyAt_self (menu : List MenuRow) (i : Nat) (v : Int)
    (h : i < menu.length) : get_quantity_by_row (setQtyAt menu i v) i = v := by
  induction menu generalizing i with
  | nil => simp at h
  | cons r rs ih =>
    cases i with
    | zero => rfl
    | succ j => exact ih j (by simpa using h)

theorem get_setQtyAt_other (menu : List MenuRow) (i j : Nat) (v : Int)
    (h : j ≠ i) :
    get_quantity_by_row (setQtyAt menu i v) j = get_quantity_by_row menu j := by
  induction menu generalizing i j with
  | nil => cases i <;> rfl
  | cons r rs ih =>
    cases i with
    | zero =>
      cases j with
      | zero => exact absurd rfl h
      | succ j' => rfl
    | succ i' =>
      cases j with
      | zero => rfl
      | succ j' => exact ih i' j' (by omega)

theorem setQtyAt_setQtyAt (menu : List MenuRow) (i : Nat) (v w : Int) :
    setQtyAt (setQtyAt menu i v) i w = setQtyAt menu i w := by
  induction menu generalizing i with
  | nil => rfl
  | cons r rs ih =>
    cases i with
    | zero => rfl
    | succ j => simp [setQtyAt, ih j]

theorem setQtyAt_get_self (menu : List MenuRow) (i : Nat) :
    setQtyAt menu i (get_quantity_by_row menu i) = menu := by
  induction menu generalizing i with
  | nil => rfl
  | cons r rs ih =>
    cases i with
    | zero => rfl
    | succ j => simp [setQtyAt, get_quantity_by_row, ih j]

theorem findMenuRowAux_lt {p : MenuRow → Bool} :
    ∀ {menu : List MenuRow} {i : Nat} {rw : MenuRow},
      findMenuRowAux p menu = some (i, rw) → i < menu.length := by
  intro menu
  induction menu with
  | nil => intro i rw h; exact absurd h (by simp [findMenuRowAux])
  | cons r rs ih =>
    intro i rw h
    unfold findMenuRowAux at h
    by_cases hp : p r
    · rw [if_pos hp] at h
      simp only [Option.some.injEq, Prod.mk.injEq] at h
      obtain ⟨h1, _⟩ := h
      simp [← h1]
    · rw [if_neg hp] at h
      cases hq : findMenuRowAux p rs with
      | none => rw [hq] at h; exact absurd h (by simp)
      | some x =>
        rw [hq] at h
        simp at h
        obtain ⟨h1, h2⟩ := h
        have hlt := @ih x.1 x.2 (by rw [hq])
        simp only [List.length_cons, ← h1]
        omega

theorem findMenuRowAux_setQtyAt {p : MenuRow → Bool}
    (hp : ∀ r v, p { r with qty := v } = p r) :
    ∀ {menu : List MenuRow} {i : Nat} {rw : MenuRow} (v : Int),
      findMenuRowAux p menu = some (i, rw) →
      findMenuRowAux p (setQtyAt menu i v) = some (i, { rw with qty := v }) := by
  intro menu
  induction menu with
  | nil => intro i rw v h; exact absurd h (by simp [findMenuRowAux])
  | cons r rs ih =>
    intro i rw v h
    unfold findMenuRowAux at h
    by_cases hpr : p r
    · rw [if_pos hpr] at h
      simp only [Option.some.injEq, Prod.mk.injEq] at h
      obtain ⟨h1, h2⟩ := h
      subst h2
      rw [← h1]
      unfold setQtyAt findMenuRowAux
      rw [if_pos (by rw [hp]; exact hpr)]
    · rw [if_neg hpr] at h
      cases hq : findMenuRowAux p rs with
      | none => rw [hq] at h; exact absurd h (by simp)
      | some x =>
        rw [hq] at h
        simp at h
        obtain ⟨h1, h2⟩ := h
        have hx : findMenuRowAux p rs = some (x.1, x.2) := by rw [hq]
        have hrec := @ih x.1 x.2 v hx
        rw [← h1, ← h2]
        unfold setQtyAt findMenuRowAux
        rw [if_neg hpr, hrec]
        rfl

/-- Quantity writes do not change which row `find_menu_row` locates. -/
theorem find_menu_row_setQtyAt (fb : String) (menu : List MenuRow)
    (day dish : String) (i : Nat) (rw : MenuRow) (v : Int)
    (h : find_menu_row fb menu day dish = some (i, rw)) :
    find_menu_row fb (setQtyAt menu i v) day dish =
      some (i, { rw with qty := v }) := by
  have hp : ∀ (r : MenuRow) (w : Int),
      menuRowMatches fb (extract_ddmmyyyy fb day) (strNorm dish)
          { r with qty := w } =
        menuRowMatches fb (extract_ddmmyyyy fb day) (strNorm dish) r :=
    fun r w => rfl
  exact findMenuRowAux_setQtyAt hp v h

/-- C2: for a located menu row currently holding quantity `q` and a
requested quantity `need`: if `q < need` the reserve fails with the
available count `q` in the message and does not write the quantity cell,
otherwise it writes exactly `q - need` back to the same row (all other
rows untouched) and returns success; in particular the written value is
never negative. -/
theorem reserve_spec (fb today dish : String) (menu : List MenuRow)
    (qa : Option Int) (i : Nat) (rw : MenuRow)
    (hf : find_menu_row fb menu today dish = some (i, rw)) :
    (get_quantity_by_row menu i < coerceQty qa →
      reserve_portions_for_today fb today menu dish qa =
        (menu, false, some ("Доступно только " ++
          toString (get_quantity_by_row menu i) ++ " шт."))) ∧
    (coerceQty qa ≤ get_quantity_by_row menu i →
      reserve_portions_for_today fb today menu dish qa =
        (setQtyAt menu i (get_quantity_by_row menu i - coerceQty qa), true, none) ∧
      get_quantity_by_row (reserve_portions_for_today fb today menu dish qa).1 i =
        get_quantity_by_row menu i - coerceQty qa ∧
      0 ≤ get_quantity_by_row menu i - coerceQty qa ∧
      ∀ j, j ≠ i →
        get_quantity_by_row (reserve_portions_for_today fb today menu dish qa).1 j =
          get_quantity_by_row menu j) := by
  constructor
  · intro hlt
    simp only [reserve_portions_for_today, hf]
    rw [if_pos hlt]
  · intro hle
    have hres : reserve_portions_for_today fb today menu dish qa =
        (setQtyAt menu i (get_quantity_by_row menu i - coerceQty qa), true, none) := by
      simp only [reserve_portions_for_today, hf]
      rw [if_neg (by omega)]
    refine ⟨hres, ?_, by omega, ?_⟩
    · rw [hres]
      show get_quantity_by_row
        (setQtyAt menu i (get_quantity_by_row menu i - coerceQty qa)) i =
        get_quantity_by_row menu i - coerceQty qa
      exact get_setQtyAt_self menu i _ (findMenuRowAux_lt hf)
    · intro j hj
      rw [hres]
      show get_quantity_by_row
        (setQtyAt menu i (get_quantity_by_row menu i - coerceQty qa)) j =
        get_quantity_by_row menu j
      exact get_setQtyAt_other menu i j _ hj

/-- C2 witness: a concrete successful reserve and a concrete refusal. -/
theorem reserve_spec_witness :
    reserve_portions_for_today "X" "01.05.2024"
        [⟨"01.05.2024", "plov", "", 3⟩] "plov" (some 2) =
      ([⟨"01.05.2024", "plov", "", 1⟩], true, none) :=
  ((reserve_spec "X" "01.05.2024" "plov" [⟨"01.05.2024", "plov", "", 3⟩]
    (some 2) 0 ⟨"01.05.2024", "plov", "", 3⟩ (by decide)).2 (by decide)).1

/-- C10: both ledger operations coerce their quantity argument (an
unparsable or non-positive value becomes 1), so every successful reserve
strictly decreases the located row (never a zero-effect or increasing
write) and every release on a located row increases it by at least 1. -/
theorem qty_coercion_spec (fb today dish : String) (menu : List MenuRow)
    (qa : Option Int) (i : Nat) (rw : MenuRow)
    (hf : find_menu_row fb menu today dish = some (i, rw)) :
    1 ≤ coerceQty qa ∧
    ((reserve_portions_for_today fb today menu dish qa).2.1 = true →
      get_quantity_by_row (reserve_portions_for_today fb today menu dish qa).1 i ≤
        get_quantity_by_row menu i - 1) ∧
    (get_quantity_by_row (release_portions_for_today fb today menu dish qa) i =
        get_quantity_by_row menu i + coerceQty qa ∧
      get_quantity_by_row menu i + 1 ≤
        get_quantity_by_row (release_portions_for_today fb today menu dish qa) i) := by
  have h1 : 1 ≤ coerceQty qa := by
    cases qa with
    | none => simp [coerceQty]
    | some n =>
      simp only [coerceQty]
      by_cases hn : n ≤ 0
      · rw [if_pos hn]
      · rw [if_neg hn]; omega
  have hlt : i < menu.length := findMenuRowAux_lt hf
  refine ⟨h1, ?_, ?_⟩
  · intro hok
    by_cases hcond : get_quantity_by_row menu i < coerceQty qa
    · have hfail : (reserve_portions_for_today fb today menu dish qa).2.1 = false := by
        simp only [reserve_portions_for_today, hf]
        rw [if_pos hcond]
      rw [hok] at hfail
      exact absurd hfail (by simp)
    · have hres : reserve_portions_for_today fb today menu dish qa =
          (setQtyAt menu i (get_quantity_by_row menu i - coerceQty qa), true, none) := by
        simp only [reserve_portions_for_today, hf]
        rw [if_neg hcond]
      rw [hres]
      show get_quantity_by_row
        (setQtyAt menu i (get_quantity_by_row menu i - coerceQty qa)) i ≤
        get_quantity_by_row menu i - 1
      rw [get_setQtyAt_self menu i _ hlt]
      omega
  · have hrel : release_portions_for_today fb today menu dish qa =
        setQtyAt menu i (get_quantity_by_row menu i + coerceQty qa) := by
      simp only [release_portions_for_today, hf]
    rw [hrel, get_setQtyAt_self menu i _ hlt]
    omega

/-- C10 witness: a reserve with quantity 0 still decrements by 1, and a
release with quantity 0 still increments by 1. -/
theorem qty_coercion_spec_witness :
    get_quantity_by_row (release_portions_for_today "X" "01.05.2024"
      [⟨"01.05.2024", "plov", "", 3⟩] "plov" (some 0)) 0 = 3 + coerceQty (some 0) :=
  (qty_coercion_spec "X" "01.05.2024" "plov" [⟨"01.05.2024", "plov", "", 3⟩]
    (some 0) 0 ⟨"01.05.2024", "plov", "", 3⟩ (by decide)).2.2.1

/-! ### Remaining sheet helpers and dish-text formatting
(bot.py lines 217-227, 243-263, 387-393, 770-827) -/

/-- `GoogleSheetsClient.get_menu_for_day`: the rows whose day cell
normalises to the same `dd.mm.yyyy` as `day_name`. -/
def get_menu_for_day (fb : String) (menu : List MenuRow)
    (day_name : String) : List MenuRow :=
  menu.filter (fun r => extract_ddmmyyyy fb r.day == extract_ddmmyyyy fb day_name)

/-- `GoogleSheetsClient.find_client`: first row of "Клиенты" whose
`telegram_id` cell (as trimmed text) equals `str(telegram_id)`. -/
def find_client (clients : List ClientRow) (uid : Int) : Option ClientRow :=
  clients.find? (fun r => pyStrip r.telegram_id == toString uid)

/-- Python `str.splitlines` as observed through the subsequent
strip-and-drop-empties step: splitting at every `\n` or `\r` produces the
same non-empty stripped lines. -/
def splitAnyNl : List Char → List (List Char)
  | [] => [[]]
  | c :: cs =>
    if c == '\n' || c == '\r' then [] :: splitAnyNl cs
    else
      match splitAnyNl cs with
      | l :: ls => (c :: l) :: ls
      | [] => [[c]]

/-- The banner test `re.match(r"^Блюдо дня[:：]?\s*$", line, re.IGNORECASE)`
of `_strip_header_line`. -/
def isBanner (cs : List Char) : Bool :=
  match cs.map lowerChar with
  | 'б' :: 'л' :: 'ю' :: 'д' :: 'о' :: ' ' :: 'д' :: 'н' :: 'я' :: rest =>
    (match rest with
     | ':' :: r => r
     | '：' :: r => r
     | r => r).all pySpace
  | _ => false

/-- `_strip_header_line`: strip each line, drop empty lines, drop a
leading "Блюдо дня" banner. -/
def strip_header_line (text : String) : List String :=
  let lines := ((splitAnyNl text.data).map trimL).filter (fun l => !l.isEmpty)
  match lines with
  | [] => []
  | l :: rest =>
    if isBanner l then rest.map String.mk else (l :: rest).map String.mk

/-- The positional classification of `split_menu_components`. -/
structure MenuParts where
  soup : Option String
  hot : Option String
  salad : Option String
  drink : Option String
  other : List String
deriving DecidableEq

/-- `split_menu_components`: line 0 is the soup, 1 the hot dish, 2 the
salad, 3 the drink, the rest goes to `other`. -/
def split_menu_components (dish_text : String) : MenuParts :=
  let lines := strip_header_line dish_text
  { soup := lines[0]?
    hot := lines[1]?
    salad := lines[2]?
    drink := lines[3]?
    other := lines.drop 4 }

/-- Dictionary access `p.get(key)` on the parts record. -/
def partGet (p : MenuParts) (k : String) : Option String :=
  if k == "soup" then p.soup
  else if k == "hot" then p.hot
  else if k == "salad" then p.salad
  else if k == "drink" then p.drink
  else none

/-- Python truthiness of an optional string (`None` and `""` are falsy). -/
def truthy (o : Option String) : Bool :=
  match o with
  | none => false
  | some s => !s.isEmpty

/-- Python's substring test `needle in hay`. -/
def hasSubstr (needle : List Char) : List Char → Bool
  | [] => needle.isEmpty
  | c :: rest => needle.isPrefixOf (c :: rest) || hasSubstr needle rest

/-- `format_selection_for_tariff`: pick the components the tariff
includes, in soup → hot → salad → drink order; fall back to all stripped
lines when nothing was recognised. -/
def format_selection_for_tariff (dish_text tariff : String) : String :=
  let p := split_menu_components dish_text
  let t := lowerStr tariff
  let want : List String :=
    if hasSubstr "максимум".data t.data then ["soup", "hot", "salad", "drink"]
    else if hasSubstr "стандарт+".data t.data then ["soup", "hot", "salad"]
    else if hasSubstr "суп".data t.data then ["soup", "hot"]
    else if hasSubstr "салат".data t.data then ["hot", "salad"]
    else ["hot"]
  let ordered := (["soup", "hot", "salad", "drink"].filter
      (fun k => want.contains k && truthy (partGet p k))).filterMap (partGet p)
  let ordered := if ordered.isEmpty then strip_header_line dish_text else ordered
  String.intercalate "\n" ordered

/-- The inline map decoding a tariff callback code (`cb_choose_tariff`). -/
def tariff_mapping (code : String) : String :=
  if code == "max" then "Максимум"
  else if code == "standard_plus" then "Стандарт+"
  else if code == "standard_soup" then "Стандарт (+суп)"
  else if code == "standard_salad" then "Стандарт (+салат)"
  else code

/-! ### `cb_choose_tariff` (bot.py lines 1499-1546)

```python
data = await fsm.get_data(uid)
menu = data.get("menu", [])
if not menu:
    return await call.answer("Меню пустое.")
idx = data.get("menu_idx", 0)
dish = str(menu[idx].get("Блюда", "")).strip()
day = now_msk_str()
row_index, _ = await sheets_find_menu_row(day, dish)
if not row_index:
    return await call.answer("Позиция меню не найдена.", show_alert=True)
qty = await sheets_get_quantity_by_row(row_index)
if qty <= 0:
    client = await sheets_find_client(uid)
    if client:
        await sheets_append_overorder(uid, name, phone, dish)
    return await call.answer("Увы, это блюдо уже закончилось.", show_alert=True)
code = call.data.split("tariff:", 1)[1]
tariff = mapping.get(code, code)
await fsm.update_data(uid, chosen_dish=dish, chosen_tariff=tariff)
await fsm.set_state(uid, "choose_address")
```

The handlers that write `menu_idx` only ever store a value in
`[0, len(menu))`, so the model restricts `menu[idx]` to that range (a
cursor outside it would raise `IndexError` in Python, modelled as the
`idxErr` outcome with no state change). -/

/-- What `cb_choose_tariff` answers to the user. -/
inductive TariffOut
  | emptyMenu
  | idxErr
  | rowNotFound
  | soldOut
  | proceed (tariff : String)
deriving DecidableEq

/-- Shallow embedding of `cb_choose_tariff`.  `nowMsk` stands for
`now_msk_str()` inside the handler, `nowStr` for the `now_msk_str()`
timestamp written by `sheets_append_overorder` (which fills the address
and timeslot columns with empty strings at this step). -/
def cb_choose_tariff (fb nowMsk nowStr : String) (w : World) (sd : SessData)
    (uid : Int) (code : String) : World × SessData × TariffOut :=
  if sd.menu.isEmpty then (w, sd, .emptyMenu)
  else if ¬ (0 ≤ sd.menu_idx ∧ sd.menu_idx < (sd.menu.length : Int)) then
    (w, sd, .idxErr)
  else
    let dish := pyStrip (((sd.menu[sd.menu_idx.toNat]?).map
      (fun r => r.dish)).getD "")
    match find_menu_row fb w.menu nowMsk dish with
    | none => (w, sd, .rowNotFound)
    | some (i, _) =>
      if get_quantity_by_row w.menu i ≤ 0 then
        match find_client w.clients uid with
        | some c =>
          ({ w with overorders := w.overorders ++
              [⟨nowStr, toString uid, pyStrip c.name, pyStrip c.phone, dish,
                "", ""⟩] }, sd, .soldOut)
        | none => (w, sd, .soldOut)
      else
        let tariff := tariff_mapping code
        (w, { sd with chosen_dish := some dish, chosen_tariff := some tariff,
                      state := some "choose_address" }, .proceed tariff)

/-! ### `_finalize_order` (bot.py lines 1127-1224)

The commit protocol: reserve a portion, look up the client profile
(releasing the reservation and clearing the session when it is missing),
append the order row (releasing on failure), then fire-and-forget CRM
push and notifications, patch the cached menu snapshot, and reset the
session to the menu state.  `appendFails` is the oracle for the
`sheets_append_order` try/except; `crmOk` is the CRM result, which the
code ignores beyond logging.  `fb` is the `extract_ddmmyyyy` fallback
date, `nowYMD` the `datetime.now()` string used by reserve/release,
`nowMsk` the `now_msk_str()` used by `send_today_menu`, and `nowStr` the
`now_msk_str()` timestamp of the appended order row. -/

/-- The user-visible outcome of `_finalize_order`. -/
inductive FinOut
  | reservationFailed (msg : String)
  | profileMissing
  | persistFailed
  | done
deriving DecidableEq

/-- The local cache patch after a successful commit:
`menu[idx]["Количество"] = str(max(0, cur - 1))`. -/
def cacheDec (menu : List MenuRow) (i : Nat) : List MenuRow :=
  setQtyAt menu i (max 0 (get_quantity_by_row menu i - 1))

/-- Shallow embedding of `_finalize_order`.  Returns the new spreadsheet
state, the user's session (`none` when `fsm.clear` deleted it) and the
outcome. -/
def finalize_order (fb nowYMD nowMsk nowStr : String) (w : World)
    (sd : SessData) (uid : Int) (payment_label : String)
    (appendFails crmOk : Bool) : World × Option SessData × FinOut :=
  let dish := sd.chosen_dish.getD ""
  let tariff := sd.chosen_tariff.getD ""
  let qty := sd.qty.getD 1
  match reserve_portions_for_today fb nowYMD w.menu dish (some qty) with
  | (_, false, err) =>
    let msg := (err.getD "")
    let sd1 := { sd with state := some "menu",
                         menu := get_menu_for_day fb w.menu nowMsk,
                         menu_idx := 0 }
    (w, some sd1, .reservationFailed
      (if msg.isEmpty then "Не удалось оформить: блюдо закончилось." else msg))
  | (menu1, true, _) =>
    let w1 := { w with menu := menu1 }
    match find_client w1.clients uid with
    | none =>
      let menu2 := release_portions_for_today fb nowYMD menu1 dish (some qty)
      ({ w1 with menu := menu2 }, none, .profileMissing)
    | some c =>
      let name := pyStrip c.name
      let phone := pyStrip c.phone
      let picked := format_selection_for_tariff dish tariff
      if appendFails then
        let menu2 := release_portions_for_today fb nowYMD menu1 dish (some qty)
        ({ w1 with menu := menu2 }, some sd, .persistFailed)
      else
        let row : OrderRow :=
          { date := nowStr, user_id := toString uid, name := name,
            phone := phone, dish := picked, tariff := tariff,
            address := sd.chosen_address, timeslot := sd.chosen_time,
            qty := qty, payment_label := payment_label }
        let w2 := { w1 with orders := w1.orders ++ [row] }
        let sd1 :=
          if 0 ≤ sd.menu_idx ∧ sd.menu_idx < (sd.menu.length : Int) then
            { sd with menu := cacheDec sd.menu sd.menu_idx.toNat }
          else sd
        let sd2 := { sd1 with state := some "menu", chosen_dish := none,
                              chosen_address := none, chosen_time := none }
        (w2, some sd2, .done)

/-- C3 counterexample: a sold-out tariff selection by a user with no
profile row in "Клиенты" is rejected with the alert but appends nothing
to the over-orders sheet — the world and the session are returned
untouched, with an empty over-orders sheet. -/
theorem tariff_soldout_counter :
    cb_choose_tariff "X" "01.05.2024" "T"
        ⟨[⟨"01.05.2024", "plov", "", 0⟩], [], [], []⟩
        ⟨some "menu", none, none, none, none, none,
          [⟨"01.05.2024", "plov", "", 0⟩], 0⟩ 7 "max" =
      (⟨[⟨"01.05.2024", "plov", "", 0⟩], [], [], []⟩,
        ⟨some "menu", none, none, none, none, none,
          [⟨"01.05.2024", "plov", "", 0⟩], 0⟩, TariffOut.soldOut) ∧
    (cb_choose_tariff "X" "01.05.2024" "T"
        ⟨[⟨"01.05.2024", "plov", "", 0⟩], [], [], []⟩
        ⟨some "menu", none, none, none, none, none,
          [⟨"01.05.2024", "plov", "", 0⟩], 0⟩ 7 "max").1.overorders = [] := by
  decide

/-- C3 (amended): a tariff selection at `Menu` whose located menu row has
quantity 0 (or less) is rejected with an alert, the session is unchanged
(in particular the state stays `menu`, never `choose_address`), no order
record is created and the menu sheet is untouched; when the user has a
client profile a missed-demand record is appended to the over-orders
sheet, and when the profile is missing the over-orders sheet is unchanged
as well. -/
theorem tariff_soldout_spec (fb nowMsk nowStr : String) (w : World)
    (sd : SessData) (uid : Int) (code : String) (i : Nat) (rw : MenuRow)
    (hidx : 0 ≤ sd.menu_idx ∧ sd.menu_idx < (sd.menu.length : Int))
    (hst : sd.state = some "menu")
    (hf : find_menu_row fb w.menu nowMsk
        (pyStrip (((sd.menu[sd.menu_idx.toNat]?).map (fun r => r.dish)).getD "")) =
      some (i, rw))
    (hq : get_quantity_by_row w.menu i ≤ 0) :
    (cb_choose_tariff fb nowMsk nowStr w sd uid code).2.2 = TariffOut.soldOut ∧
    (cb_choose_tariff fb nowMsk nowStr w sd uid code).2.1 = sd ∧
    (cb_choose_tariff fb nowMsk nowStr w sd uid code).2.1.state = some "menu" ∧
    (cb_choose_tariff fb nowMsk nowStr w sd uid code).1.orders = w.orders ∧
    (cb_choose_tariff fb nowMsk nowStr w sd uid code).1.menu = w.menu ∧
    (∀ c, find_client w.clients uid = some c →
      (cb_choose_tariff fb nowMsk nowStr w sd uid code).1.overorders =
        w.overorders ++
          [⟨nowStr, toString uid, pyStrip c.name, pyStrip c.phone,
            pyStrip (((sd.menu[sd.menu_idx.toNat]?).map (fun r => r.dish)).getD ""),
            "", ""⟩]) ∧
    (find_client w.clients uid = none →
      (cb_choose_tariff fb nowMsk nowStr w sd uid code).1.overorders =
        w.overorders) := by
  have hne : sd.menu.isEmpty = false := by
    cases hm : sd.menu with
    | nil =>
      exfalso
      rw [hm] at hidx
      simp at hidx
      omega
    | cons a l => simp
  cases hcl : find_client w.clients uid with
  | none =>
    have hres : cb_choose_tariff fb nowMsk nowStr w sd uid code =
        (w, sd, TariffOut.soldOut) := by
      simp only [cb_choose_tariff, hne, Bool.false_eq_true, if_false]
      rw [if_neg (not_not_intro hidx)]
      simp only [hf]
      rw [if_pos hq]
      simp only [hcl]
    rw [hres]
    refine ⟨rfl, rfl, hst, rfl, rfl, ?_, fun _ => rfl⟩
    intro c hc
    exact absurd hc (by simp)
  | some c0 =>
    have hres : cb_choose_tariff fb nowMsk nowStr w sd uid code =
        ({ w with overorders := w.overorders ++
            [⟨nowStr, toString uid, pyStrip c0.name, pyStrip c0.phone,
              pyStrip (((sd.menu[sd.menu_idx.toNat]?).map (fun r => r.dish)).getD ""),
              "", ""⟩] }, sd, TariffOut.soldOut) := by
      simp only [cb_choose_tariff, hne, Bool.false_eq_true, if_false]
      rw [if_neg (not_not_intro hidx)]
      simp only [hf]
      rw [if_pos hq]
      simp only [hcl]
    rw [hres]
    refine ⟨rfl, rfl, hst, rfl, rfl, ?_, ?_⟩
    · intro c hc
      obtain rfl : c0 = c := Option.some.inj hc
      rfl
    · intro hc
      exact absurd hc (by simp)

/-- C3 witness: a concrete sold-out selection by a registered user logs a
missed-demand record. -/
theorem tariff_soldout_spec_witness :
    (cb_choose_tariff "X" "01.05.2024" "T"
        ⟨[⟨"01.05.2024", "plov", "", 0⟩], [⟨"7", "Ivan Ivanov", "+791"⟩], [], []⟩
        ⟨some "menu", none, none, none, none, none,
          [⟨"01.05.2024", "plov", "", 0⟩], 0⟩ 7 "max").1.overorders =
      [⟨"T", "7", "Ivan Ivanov", "+791", "plov", "", ""⟩] := by
  have h := (tariff_soldout_spec "X" "01.05.2024" "T"
      ⟨[⟨"01.05.2024", "plov", "", 0⟩], [⟨"7", "Ivan Ivanov", "+791"⟩], [], []⟩
      ⟨some "menu", none, none, none, none, none,
        [⟨"01.05.2024", "plov", "", 0⟩], 0⟩ 7 "max" 0
      ⟨"01.05.2024", "plov", "", 0⟩ (by decide) rfl (by decide)
      (by decide)).2.2.2.2.2.1
    ⟨"7", "Ivan Ivanov", "+791"⟩ (by decide)
  rw [h]
  decide

theorem orders_ne_append (l : List OrderRow) (a : OrderRow) :
    ¬ (l = l ++ [a]) := by
  intro h
  have := congrArg List.length h
  simp at this

/-- C1: for every confirmed order with chosen dish and quantity
`qty ≥ 1`, the commit protocol ends in exactly one of two outcomes:
either the located menu row was decremented by `qty` and exactly one
order row was appended, or the menu sheet and the orders sheet are both
exactly as before (a failed reservation aborts before any append; a
missing profile or a failing append releases the reserved portions; the
CRM outcome `cOk` and the notification fan-out never undo anything).
The clients and over-orders sheets are never touched. -/
theorem finalize_order_atomic (fb nowYMD nowMsk nowStr : String) (w : World)
    (sd : SessData) (uid : Int) (pl : String) (aF cOk : Bool) (q : Int)
    (hq : sd.qty = some q) (h1 : 1 ≤ q) :
    Xor'
      (∃ i rw orow,
        find_menu_row fb w.menu nowYMD (sd.chosen_dish.getD "") = some (i, rw) ∧
        (finalize_order fb nowYMD nowMsk nowStr w sd uid pl aF cOk).1.menu =
          setQtyAt w.menu i (get_quantity_by_row w.menu i - q) ∧
        (finalize_order fb nowYMD nowMsk nowStr w sd uid pl aF cOk).1.orders =
          w.orders ++ [orow])
      ((finalize_order fb nowYMD nowMsk nowStr w sd uid pl aF cOk).1.menu =
          w.menu ∧
        (finalize_order fb nowYMD nowMsk nowStr w sd uid pl aF cOk).1.orders =
          w.orders) ∧
    (finalize_order fb nowYMD nowMsk nowStr w sd uid pl aF cOk).1.clients =
      w.clients ∧
    (finalize_order fb nowYMD nowMsk nowStr w sd uid pl aF cOk).1.overorders =
      w.overorders := by
  have hcq : coerceQty (some q) = q := by
    simp only [coerceQty]
    rw [if_neg (by omega)]
  cases hfind : find_menu_row fb w.menu nowYMD (sd.chosen_dish.getD "") with
  | none =>
    have hrsv : reserve_portions_for_today fb nowYMD w.menu
        (sd.chosen_dish.getD "") (some q) =
        (w.menu, false, some "Позиция меню не найдена.") := by
      simp only [reserve_portions_for_today, hfind]
    have hw : (finalize_order fb nowYMD nowMsk nowStr w sd uid pl aF cOk).1 = w := by
      simp only [finalize_order, hq, Option.getD_some, hrsv]
    rw [hw]
    refine ⟨Or.inr ⟨⟨rfl, rfl⟩, ?_⟩, rfl, rfl⟩
    rintro ⟨i, rw, orow, hfi, -, -⟩
    exact absurd hfi (by simp)
  | some pair =>
    obtain ⟨i, rw⟩ := pair
    by_cases hlow : get_quantity_by_row w.menu i < q
    · have hrsv : reserve_portions_for_today fb nowYMD w.menu
          (sd.chosen_dish.getD "") (some q) =
          (w.menu, false, some ("Доступно только " ++
            toString (get_quantity_by_row w.menu i) ++ " шт.")) := by
        simp only [reserve_portions_for_today, hfind, hcq]
        rw [if_pos hlow]
      have hw : (finalize_order fb nowYMD nowMsk nowStr w sd uid pl aF cOk).1 = w := by
        simp only [finalize_order, hq, Option.getD_some, hrsv]
      rw [hw]
      refine ⟨Or.inr ⟨⟨rfl, rfl⟩, ?_⟩, rfl, rfl⟩
      rintro ⟨i', rw', orow, -, -, ho⟩
      exact orders_ne_append w.orders orow ho
    · have hrsv : reserve_portions_for_today fb nowYMD w.menu
          (sd.chosen_dish.getD "") (some q) =
          (setQtyAt w.menu i (get_quantity_by_row w.menu i - q), true, none) := by
        simp only [reserve_portions_for_today, hfind, hcq]
        rw [if_neg hlow]
      have hlt : i < w.menu.length := findMenuRowAux_lt hfind
      have hfind2 := find_menu_row_setQtyAt fb w.menu nowYMD
        (sd.chosen_dish.getD "") i rw
        (get_quantity_by_row w.menu i - q) hfind
      have hrel : release_portions_for_today fb nowYMD
          (setQtyAt w.menu i (get_quantity_by_row w.menu i - q))
          (sd.chosen_dish.getD "") (some q) = w.menu := by
        simp only [release_portions_for_today, hfind2, hcq]
        rw [get_setQtyAt_self w.menu i _ hlt, setQtyAt_setQtyAt]
        have hgq : get_quantity_by_row w.menu i - q + q =
            get_quantity_by_row w.menu i := by omega
        rw [hgq, setQtyAt_get_self]
      cases hcl : find_client w.clients uid with
      | none =>
        have hw : (finalize_order fb nowYMD nowMsk nowStr w sd uid pl aF cOk).1 = w := by
          simp only [finalize_order, hq, Option.getD_some, hrsv, hcl, hrel,
              Bool.false_eq_true, if_true, if_false]
        rw [hw]
        refine ⟨Or.inr ⟨⟨rfl, rfl⟩, ?_⟩, rfl, rfl⟩
        rintro ⟨i', rw', orow, -, -, ho⟩
        exact orders_ne_append w.orders orow ho
      | some c =>
        cases aF with
        | true =>
          have hw : (finalize_order fb nowYMD nowMsk nowStr w sd uid pl true cOk).1 = w := by
            simp only [finalize_order, hq, Option.getD_some, hrsv, hcl, hrel,
              Bool.false_eq_true, if_true, if_false]
          rw [hw]
          refine ⟨Or.inr ⟨⟨rfl, rfl⟩, ?_⟩, rfl, rfl⟩
          rintro ⟨i', rw', orow, -, -, ho⟩
          exact orders_ne_append w.orders orow ho
        | false =>
          have hmenu :
              (finalize_order fb nowYMD nowMsk nowStr w sd uid pl false cOk).1.menu =
              setQtyAt w.menu i (get_quantity_by_row w.menu i - q) := by
            simp only [finalize_order, hq, Option.getD_some, hrsv, hcl,
              Bool.false_eq_true, if_true, if_false]
          have horders :
              (finalize_order fb nowYMD nowMsk nowStr w sd uid pl false cOk).1.orders =
              w.orders ++
                [{ date := nowStr, user_id := toString uid,
                   name := pyStrip c.name, phone := pyStrip c.phone,
                   dish := format_selection_for_tariff (sd.chosen_dish.getD "")
                     (sd.chosen_tariff.getD ""),
                   tariff := sd.chosen_tariff.getD "",
                   address := sd.chosen_address, timeslot := sd.chosen_time,
                   qty := q, payment_label := pl }] := by
            simp only [finalize_order, hq, Option.getD_some, hrsv, hcl,
              Bool.false_eq_true, if_true, if_false]
          have hclients :
              (finalize_order fb nowYMD nowMsk nowStr w sd uid pl false cOk).1.clients =
              w.clients := by
            simp only [finalize_order, hq, Option.getD_some, hrsv, hcl,
              Bool.false_eq_true, if_true, if_false]
          have hover :
              (finalize_order fb nowYMD nowMsk nowStr w sd uid pl false cOk).1.overorders =
              w.overorders := by
            simp only [finalize_order, hq, Option.getD_some, hrsv, hcl,
              Bool.false_eq_true, if_true, if_false]
          refine ⟨Or.inl ⟨⟨i, rw, _, rfl, hmenu, horders⟩, ?_⟩, hclients, hover⟩
          rintro ⟨-, ho2⟩
          rw [horders] at ho2
          exact orders_ne_append w.orders _ ho2.symm

/-- C1 witness: a concrete successful commit decrements the ledger and
appends one order row. -/
theorem finalize_order_atomic_witness :
    Xor'
      (∃ i rw orow,
        find_menu_row "X" [⟨"01.05.2024", "plov", "", 3⟩] "01.05.2024"
          ((⟨some "confirm", some "plov", some "Максимум", some "A",
              some "12-13", some 1, [⟨"01.05.2024", "plov", "", 3⟩], 0⟩ :
            SessData).chosen_dish.getD "") = some (i, rw) ∧
        (finalize_order "X" "01.05.2024" "01.05.2024" "01.05.2024"
          ⟨[⟨"01.05.2024", "plov", "", 3⟩], [⟨"7", "Ivan Ivanov", "+791"⟩], [], []⟩
          ⟨some "confirm", some "plov", some "Максимум", some "A",
            some "12-13", some 1, [⟨"01.05.2024", "plov", "", 3⟩], 0⟩
          7 "cash" false true).1.menu =
          setQtyAt [⟨"01.05.2024", "plov", "", 3⟩] i
            (get_quantity_by_row [⟨"01.05.2024", "plov", "", 3⟩] i - 1) ∧
        (finalize_order "X" "01.05.2024" "01.05.2024" "01.05.2024"
          ⟨[⟨"01.05.2024", "plov", "", 3⟩], [⟨"7", "Ivan Ivanov", "+791"⟩], [], []⟩
          ⟨some "confirm", some "plov", some "Максимум", some "A",
            some "12-13", some 1, [⟨"01.05.2024", "plov", "", 3⟩], 0⟩
          7 "cash" false true).1.orders = [] ++ [orow])
      ((finalize_order "X" "01.05.2024" "01.05.2024" "01.05.2024"
          ⟨[⟨"01.05.2024", "plov", "", 3⟩], [⟨"7", "Ivan Ivanov", "+791"⟩], [], []⟩
          ⟨some "confirm", some "plov", some "Максимум", some "A",
            some "12-13", some 1, [⟨"01.05.2024", "plov", "", 3⟩], 0⟩
          7 "cash" false true).1.menu = [⟨"01.05.2024", "plov", "", 3⟩] ∧
        (finalize_order "X" "01.05.2024" "01.05.2024" "01.05.2024"
          ⟨[⟨"01.05.2024", "plov", "", 3⟩], [⟨"7", "Ivan Ivanov", "+791"⟩], [], []⟩
          ⟨some "confirm", some "plov", some "Максимум", some "A",
            some "12-13", some 1, [⟨"01.05.2024", "plov", "", 3⟩], 0⟩
          7 "cash" false true).1.orders = []) ∧
    (finalize_order "X" "01.05.2024" "01.05.2024" "01.05.2024"
        ⟨[⟨"01.05.2024", "plov", "", 3⟩], [⟨"7", "Ivan Ivanov", "+791"⟩], [], []⟩
        ⟨some "confirm", some "plov", some "Максимум", some "A",
          some "12-13", some 1, [⟨"01.05.2024", "plov", "", 3⟩], 0⟩
        7 "cash" false true).1.clients = [⟨"7", "Ivan Ivanov", "+791"⟩] ∧
    (finalize_order "X" "01.05.2024" "01.05.2024" "01.05.2024"
        ⟨[⟨"01.05.2024", "plov", "", 3⟩], [⟨"7", "Ivan Ivanov", "+791"⟩], [], []⟩
        ⟨some "confirm", some "plov", some "Максимум", some "A",
          some "12-13", some 1, [⟨"01.05.2024", "plov", "", 3⟩], 0⟩
        7 "cash" false true).1.overorders = [] :=
  finalize_order_atomic "X" "01.05.2024" "01.05.2024" "01.05.2024"
    ⟨[⟨"01.05.2024", "plov", "", 3⟩], [⟨"7", "Ivan Ivanov", "+791"⟩], [], []⟩
    ⟨some "confirm", some "plov", some "Максимум", some "A",
      some "12-13", some 1, [⟨"01.05.2024", "plov", "", 3⟩], 0⟩
    7 "cash" false true 1 rfl (by decide)

/-- C9: after every successful commit, the cached menu snapshot entry at
the current cursor has its quantity decremented by exactly 1, floored at
0, regardless of the ordered quantity `q`; so when the cache was in sync
with the ledger and `q ≥ 2`, the cached count exceeds the ledger by
`q - 1`. -/
theorem cache_decrement_spec (fb nowYMD nowMsk nowStr : String) (w : World)
    (sd : SessData) (uid : Int) (pl : String) (cOk : Bool) (q : Int)
    (i : Nat) (rw : MenuRow) (c : ClientRow)
    (hq : sd.qty = some q) (h1 : 1 ≤ q)
    (hfind : find_menu_row fb w.menu nowYMD (sd.chosen_dish.getD "") =
      some (i, rw))
    (hok : q ≤ get_quantity_by_row w.menu i)
    (hcl : find_client w.clients uid = some c)
    (hidx : 0 ≤ sd.menu_idx ∧ sd.menu_idx < (sd.menu.length : Int)) :
    ∃ sd2,
      (finalize_order fb nowYMD nowMsk nowStr w sd uid pl false cOk).2.1 =
        some sd2 ∧
      get_quantity_by_row sd2.menu sd.menu_idx.toNat =
        max 0 (get_quantity_by_row sd.menu sd.menu_idx.toNat - 1) ∧
      (get_quantity_by_row sd.menu sd.menu_idx.toNat =
          get_quantity_by_row w.menu i → 2 ≤ q →
        get_quantity_by_row sd2.menu sd.menu_idx.toNat -
          get_quantity_by_row
            (finalize_order fb nowYMD nowMsk nowStr w sd uid pl false cOk).1.menu
            i = q - 1) := by
  have hcq : coerceQty (some q) = q := by
    simp only [coerceQty]
    rw [if_neg (by omega)]
  have hrsv : reserve_portions_for_today fb nowYMD w.menu
      (sd.chosen_dish.getD "") (some q) =
      (setQtyAt w.menu i (get_quantity_by_row w.menu i - q), true, none) := by
    simp only [reserve_portions_for_today, hfind, hcq]
    rw [if_neg (by omega)]
  have hlt : i < w.menu.length := findMenuRowAux_lt hfind
  have hjlt : sd.menu_idx.toNat < sd.menu.length := by omega
  have hmenuW :
      (finalize_order fb nowYMD nowMsk nowStr w sd uid pl false cOk).1.menu =
      setQtyAt w.menu i (get_quantity_by_row w.menu i - q) := by
    simp only [finalize_order, hq, Option.getD_some, hrsv, hcl,
      Bool.false_eq_true, if_true, if_false]
  have hmenu2 :
      ((finalize_order fb nowYMD nowMsk nowStr w sd uid pl false cOk).2.1.map
        (fun s => s.menu)) = some (cacheDec sd.menu sd.menu_idx.toNat) := by
    simp only [finalize_order, hq, Option.getD_some, hrsv, hcl,
      Bool.false_eq_true, if_true, if_false, Option.map_some']
    rw [if_pos hidx]
  cases hres : (finalize_order fb nowYMD nowMsk nowStr w sd uid pl false cOk).2.1 with
  | none => rw [hres] at hmenu2; exact absurd hmenu2 (by simp)
  | some sd2 =>
    rw [hres] at hmenu2
    have hsdmenu : sd2.menu = cacheDec sd.menu sd.menu_idx.toNat := by
      simpa using hmenu2
    have hcache : get_quantity_by_row sd2.menu sd.menu_idx.toNat =
        max 0 (get_quantity_by_row sd.menu sd.menu_idx.toNat - 1) := by
      rw [hsdmenu]
      exact get_setQtyAt_self sd.menu sd.menu_idx.toNat _ hjlt
    refine ⟨sd2, rfl, hcache, ?_⟩
    intro hsync h2q
    have hled : get_quantity_by_row
        (finalize_order fb nowYMD nowMsk nowStr w sd uid pl false cOk).1.menu i =
        get_quantity_by_row w.menu i - q := by
      rw [hmenuW]
      exact get_setQtyAt_self w.menu i _ hlt
    rw [hled, hcache, hsync]
    omega

/-- C9 witness: committing quantity 2 leaves the cached count one above
the ledger count. -/
theorem cache_decrement_spec_witness :
    ∃ sd2,
      (finalize_order "X" "01.05.2024" "01.05.2024" "01.05.2024"
        ⟨[⟨"01.05.2024", "plov", "", 3⟩], [⟨"7", "Ivan Ivanov", "+791"⟩], [], []⟩
        ⟨some "confirm", some "plov", some "Максимум", some "A",
          some "12-13", some 2, [⟨"01.05.2024", "plov", "", 3⟩], 0⟩
        7 "cash" false true).2.1 = some sd2 ∧
      get_quantity_by_row sd2.menu (0 : Int).toNat =
        max 0 (get_quantity_by_row [⟨"01.05.2024", "plov", "", 3⟩] (0 : Int).toNat - 1) ∧
      (get_quantity_by_row [⟨"01.05.2024", "plov", "", 3⟩] (0 : Int).toNat =
          get_quantity_by_row [⟨"01.05.2024", "plov", "", 3⟩] 0 → 2 ≤ (2 : Int) →
        get_quantity_by_row sd2.menu (0 : Int).toNat -
          get_quantity_by_row
            (finalize_order "X" "01.05.2024" "01.05.2024" "01.05.2024"
              ⟨[⟨"01.05.2024", "plov", "", 3⟩], [⟨"7", "Ivan Ivanov", "+791"⟩], [], []⟩
              ⟨some "confirm", some "plov", some "Максимум", some "A",
                some "12-13", some 2, [⟨"01.05.2024", "plov", "", 3⟩], 0⟩
              7 "cash" false true).1.menu 0 = 2 - 1) :=
  cache_decrement_spec "X" "01.05.2024" "01.05.2024" "01.05.2024"
    ⟨[⟨"01.05.2024", "plov", "", 3⟩], [⟨"7", "Ivan Ivanov", "+791"⟩], [], []⟩
    ⟨some "confirm", some "plov", some "Максимум", some "A",
      some "12-13", some 2, [⟨"01.05.2024", "plov", "", 3⟩], 0⟩
    7 "cash" true 2 0 ⟨"01.05.2024", "plov", "", 3⟩
    ⟨"7", "Ivan Ivanov", "+791"⟩ rfl (by decide) (by decide) (by decide)
    (by decide) (by decide)

end StimFood
